import Mathlib

/-!
Shallow embedding of `src/main.rs` of the `clitodo` task tracker.

Rust `String` / `&str` is modeled as `List Char` (`Str`); `Vec<String>` as
`List Str`; `usize` indices as `Nat`.  Functions that can panic or call
`process::exit` are modeled as `Option` / `Except`.  File contents are
character sequences; `rustLines` models Rust's `BufRead::lines` (splitting
on `'\n'` and stripping a `'\r'` that immediately precedes a `'\n'`).
-/

namespace Clitodo

/-- Model of Rust `String` / `&str`: a sequence of characters. -/
abbrev Str := List Char

/-- `const REGULAR_PAIR: i16 = 0`. -/
def REGULAR_PAIR : Int := 0

/-- `const HIGHLIGHT_PAIR: i16 = 1`. -/
def HIGHLIGHT_PAIR : Int := 1

/-- The `Ui` struct: immediate-mode UI state (`list_current`, `row`, `col`). -/
structure Ui where
  list_current : Option Nat
  row : Nat
  col : Nat
deriving DecidableEq, Repr

/-- `Ui::default()`. -/
def Ui.default : Ui := ⟨none, 0, 0⟩

/-- `Ui::begin`: reset the drawing cursor. -/
def Ui.begin (ui : Ui) (row col : Nat) : Ui :=
  { ui with row := row, col := col }

/-- `Ui::label`: draws text at the cursor (external ncurses effect) and
advances the cursor one row down. -/
def Ui.label (ui : Ui) (_text : Str) (_pair : Int) : Ui :=
  { ui with row := ui.row + 1 }

/-- `Ui::begin_list`: `assert!(self.list_current.is_none())` — `none` models
the assertion failure (panic) when a list context is already open. -/
def Ui.begin_list (ui : Ui) (id : Nat) : Option Ui :=
  if ui.list_current = none then some { ui with list_current := some id }
  else none

/-- `Ui::list_element`: `self.list_current.expect(..)` — `none` models the
panic when no list context is open; otherwise draws a label with the
highlight pair iff `id_current == id`, and returns `false`. -/
def Ui.list_element (ui : Ui) (text : Str) (id : Nat) : Option (Ui × Bool) :=
  match ui.list_current with
  | none => none
  | some id_current =>
      some (ui.label text (if id_current = id then HIGHLIGHT_PAIR else REGULAR_PAIR), false)

/-- `Ui::end_list`: clears the open list context. -/
def Ui.end_list (ui : Ui) : Ui :=
  { ui with list_current := none }

/-- `Ui::end`: a no-op. -/
def Ui.end (ui : Ui) : Ui := ui

/-- The `Status` enum. -/
inductive Status where
  | Todo
  | Done
deriving DecidableEq, Repr

/-- `Status::toggle`. -/
def Status.toggle : Status → Status
  | Status.Todo => Status.Done
  | Status.Done => Status.Todo

/-- `let todo_prefix = "TODO: ";` -/
def todoPrefix : Str := ['T', 'O', 'D', 'O', ':', ' ']

/-- `let done_prefix = "DONE: ";` -/
def donePrefix : Str := ['D', 'O', 'N', 'E', ':', ' ']

/-- `parse_todo`: recognize a `TODO: ` or `DONE: ` line and strip its marker. -/
def parse_todo (line : Str) : Option (Status × Str) :=
  if todoPrefix.isPrefixOf line then some (Status.Todo, line.drop todoPrefix.length)
  else if donePrefix.isPrefixOf line then some (Status.Done, line.drop donePrefix.length)
  else none

/-- `list_up`: decrement the selection index if it is positive. -/
def list_up (list_current : Nat) : Nat :=
  if list_current > 0 then list_current - 1 else list_current

/-- `list_down`: increment the selection index if `index + 1 < list.len()`. -/
def list_down (list : List Str) (list_current : Nat) : Nat :=
  if list_current + 1 < list.length then list_current + 1 else list_current

/-- `list_transfer`: if the source index is in bounds, remove that item from
the source, push it onto the destination, and reclamp the source index when
it fell off the (shorter) end of a still non-empty source.  Returns
`(list_dst, list_src, list_src_curr)` after mutation. -/
def list_transfer (list_dst list_src : List Str) (list_src_curr : Nat) :
    List Str × List Str × Nat :=
  if h : list_src_curr < list_src.length then
    (list_dst ++ [list_src.get ⟨list_src_curr, h⟩],
     list_src.eraseIdx list_src_curr,
     if list_src_curr ≥ (list_src.eraseIdx list_src_curr).length ∧
         (list_src.eraseIdx list_src_curr).length > 0 then
       (list_src.eraseIdx list_src_curr).length - 1
     else list_src_curr)
  else (list_dst, list_src, list_src_curr)

/-- `writeln!` of a sequence of lines: each line followed by `'\n'`. -/
def linesJoin : List Str → Str
  | [] => []
  | l :: ls => l ++ '\n' :: linesJoin ls

/-- `save_state`: the file content written — every todo as a `TODO: ` line,
then every done as a `DONE: ` line. -/
def save_state (todos dones : List Str) : Str :=
  linesJoin (todos.map (fun t => todoPrefix ++ t) ++ dones.map (fun d => donePrefix ++ d))

/-- Split a character sequence at every `'\n'` (the separators are consumed);
always returns at least one (possibly empty) chunk, like `String::split`. -/
def splitNL : List Char → List (List Char)
  | [] => [[]]
  | c :: cs =>
      if c = '\n' then [] :: splitNL cs
      else
        match splitNL cs with
        | [] => [[c]]
        | r :: rs => (c :: r) :: rs

/-- Strip one trailing `'\r'`, as `BufRead::lines` does on a line that ended
with `"\r\n"`. -/
def stripCR (l : Str) : Str :=
  if l.getLast? = some '\r' then l.dropLast else l

/-- Model of Rust `BufRead::lines` on the whole file content: chunks between
`'\n'`s with a trailing `'\r'` stripped; a final chunk not terminated by
`'\n'` is yielded verbatim if non-empty, and a trailing `'\n'` produces no
empty final line. -/
def rustLines (s : Str) : List Str :=
  let parts := splitNL s
  let last := parts.getLastD []
  parts.dropLast.map stripCR ++ (if last = [] then [] else [last])

/-- The error produced when `load_state` hits a malformed line: the program
prints `"{file_path}:{index + 1}: ERROR: item line format incorrectly"` to
stderr and calls `process::exit(1)`. -/
structure LoadError where
  exitCode : Nat
  path : Str
  lineNumber : Nat
  message : Str
deriving DecidableEq, Repr

/-- The fixed text after the `path:line:` position in the diagnostic. -/
def loadErrMsg : Str :=
  [':', ' ', 'E', 'R', 'R', 'O', 'R', ':', ' ', 'i', 't', 'e', 'm', ' ',
   'l', 'i', 'n', 'e', ' ', 'f', 'o', 'r', 'm', 'a', 't', ' ',
   'i', 'n', 'c', 'o', 'r', 'r', 'e', 'c', 't', 'l', 'y']

/-- The loop body of `load_state` over the enumerated lines, carrying the
0-based `index` and the two accumulated lists. -/
def loadLines (file_path : Str) :
    List Str → Nat → List Str → List Str → Except LoadError (List Str × List Str)
  | [], _, todos, dones => .ok (todos, dones)
  | line :: rest, index, todos, dones =>
      match parse_todo line with
      | some (Status.Todo, title) => loadLines file_path rest (index + 1) (todos ++ [title]) dones
      | some (Status.Done, title) => loadLines file_path rest (index + 1) todos (dones ++ [title])
      | none => .error ⟨1, file_path, index + 1, loadErrMsg⟩

/-- `load_state` applied to a file's content: parse every line, or exit with
code 1 and the diagnostic naming the path and the 1-based line number. -/
def load_state (file_path content : Str) : Except LoadError (List Str × List Str) :=
  loadLines file_path (rustLines content) 0 [] []

/-- The mutable state of `main`'s event loop. -/
structure AppState where
  todos : List Str
  todo_current : Nat
  dones : List Str
  done_current : Nat
  tab : Status
  quit : Bool
deriving DecidableEq, Repr

/-- The state right after `load_state` populated the two lists: both
selection indices start at 0, the `Todo` tab is active, `quit` is false. -/
def initState (todos dones : List Str) : AppState :=
  ⟨todos, 0, dones, 0, Status.Todo, false⟩

/-- One iteration of the key `match` in `main`: the effect of one key press
on the application state.  `none` models a panic: the `'s'` handler indexes
`dones[done_current]` unconditionally and panics when it is out of bounds.
`'e'` writes an export file and leaves the state unchanged; unknown keys are
ignored. -/
def keyStep (key : Char) (st : AppState) : Option AppState :=
  if key = 'q' then some { st with quit := true }
  else if key = 'k' then
    match st.tab with
    | Status.Todo => some { st with todo_current := list_up st.todo_current }
    | Status.Done => some { st with done_current := list_up st.done_current }
  else if key = 'j' then
    match st.tab with
    | Status.Todo => some { st with todo_current := list_down st.todos st.todo_current }
    | Status.Done => some { st with done_current := list_down st.dones st.done_current }
  else if key = '\n' then
    match st.tab with
    | Status.Todo =>
        let r := list_transfer st.dones st.todos st.todo_current
        some { st with dones := r.1, todos := r.2.1, todo_current := r.2.2 }
    | Status.Done =>
        let r := list_transfer st.todos st.dones st.done_current
        some { st with todos := r.1, dones := r.2.1, done_current := r.2.2 }
  else if key = 's' then
    match st.dones.get? st.done_current with
    | some item => some { st with todos := st.todos ++ [item] }
    | none => none
  else if key = 'e' then some st
  else if key = '\t' then some { st with tab := st.tab.toggle }
  else some st

/-- Run a sequence of key presses, propagating a panic. -/
def runKeys : List Char → AppState → Option AppState
  | [], st => some st
  | k :: ks, st =>
      match keyStep k st with
      | none => none
      | some st' => runKeys ks st'

/-- States the program can actually be in: the state right after a successful
load, and anything obtained from a reachable state by a key press that does
not panic. -/
inductive Reachable : AppState → Prop where
  | init : ∀ file_path content todos dones,
      load_state file_path content = .ok (todos, dones) →
      Reachable (initState todos dones)
  | step : ∀ st st' key, Reachable st → keyStep key st = some st' → Reachable st'

/-- The spec's selection invariant, literally: a non-empty list's selection
index is in bounds (an empty list's index is unconstrained). -/
def validSel (st : AppState) : Prop :=
  (st.todos ≠ [] → st.todo_current < st.todos.length) ∧
  (st.dones ≠ [] → st.done_current < st.dones.length)

/-- The strengthened (inductive) selection invariant for one list: in bounds
when the list is non-empty, and exactly 0 when it is empty. -/
def selOk (l : List Str) (i : Nat) : Prop :=
  i < l.length ∨ (l.length = 0 ∧ i = 0)

/-- The strengthened invariant on the whole state. -/
def inv (st : AppState) : Prop :=
  selOk st.todos st.todo_current ∧ selOk st.dones st.done_current

instance (l : List Str) (i : Nat) : Decidable (selOk l i) := by
  unfold selOk; infer_instance

instance (st : AppState) : Decidable (validSel st) := by
  unfold validSel; infer_instance

instance (st : AppState) : Decidable (inv st) := by
  unfold inv selOk; infer_instance

/-- Draw the elements of one list inside an open list context, as the render
loop of `main` does; `none` models a `list_element` panic. -/
def drawElems : Ui → List (Str × Nat) → Option Ui
  | ui, [] => some ui
  | ui, (text, id) :: rest =>
      match ui.list_element text id with
      | none => none
      | some (ui', _) => drawElems ui' rest

/-- One whole list render: `begin_list`, the element loop, `end_list`;
`none` models an assertion failure / panic in the UI layer. -/
def renderList (ui : Ui) (sel : Nat) (items : List (Str × Nat)) : Option Ui :=
  match ui.begin_list sel with
  | none => none
  | some ui' =>
      match drawElems ui' items with
      | none => none
      | some ui'' => some ui''.end_list

/-! ## Helper lemmas -/

theorem selOk_list_up (l : List Str) (i : Nat) (h : selOk l i) : selOk l (list_up i) := by
  unfold selOk list_up at *
  split <;> omega

theorem selOk_list_down (l : List Str) (i : Nat) (h : selOk l i) : selOk l (list_down l i) := by
  unfold selOk list_down at *
  split <;> omega

theorem selOk_grow (l : List Str) (x : Str) (i : Nat) (h : selOk l i) : selOk (l ++ [x]) i := by
  unfold selOk at *
  simp only [List.length_append, List.length_cons, List.length_nil]
  omega

theorem length_eraseIdx_lt (l : List Str) (i : Nat) (h : i < l.length) :
    (l.eraseIdx i).length = l.length - 1 := by
  rw [List.length_eraseIdx, if_pos h]

theorem list_transfer_selOk_src (dst src : List Str) (i : Nat) (h : selOk src i) :
    selOk (list_transfer dst src i).2.1 (list_transfer dst src i).2.2 := by
  unfold list_transfer
  split
  case isTrue hlt =>
    have hlen := length_eraseIdx_lt src i hlt
    dsimp only
    unfold selOk
    split <;> omega
  case isFalse hge => exact h

theorem list_transfer_selOk_dst (dst src : List Str) (i j : Nat) (h : selOk dst j) :
    selOk (list_transfer dst src i).1 j := by
  unfold list_transfer
  split
  case isTrue hlt => exact selOk_grow dst _ j h
  case isFalse hge => exact h

theorem keyStep_inv (key : Char) (st st' : AppState) (hinv : inv st)
    (h : keyStep key st = some st') : inv st' := by
  unfold keyStep at h
  split_ifs at h with h1 h2 h3 h4 h5 h6 h7
  · injection h with h; subst h; exact hinv
  · cases htab : st.tab <;> rw [htab] at h <;> injection h with h <;> subst h
    · exact ⟨selOk_list_up _ _ hinv.1, hinv.2⟩
    · exact ⟨hinv.1, selOk_list_up _ _ hinv.2⟩
  · cases htab : st.tab <;> rw [htab] at h <;> injection h with h <;> subst h
    · exact ⟨selOk_list_down _ _ hinv.1, hinv.2⟩
    · exact ⟨hinv.1, selOk_list_down _ _ hinv.2⟩
  · cases htab : st.tab <;> rw [htab] at h <;> injection h with h <;> subst h
    · exact ⟨list_transfer_selOk_src _ _ _ hinv.1,
        list_transfer_selOk_dst _ _ _ _ hinv.2⟩
    · exact ⟨list_transfer_selOk_dst _ _ _ _ hinv.1,
        list_transfer_selOk_src _ _ _ hinv.2⟩
  · cases hget : st.dones.get? st.done_current <;> rw [hget] at h
    · exact absurd h (by simp)
    · injection h with h; subst h
      exact ⟨selOk_grow _ _ _ hinv.1, hinv.2⟩
  · injection h with h; subst h; exact hinv
  · injection h with h; subst h; exact hinv
  · injection h with h; subst h; exact hinv

theorem reachable_inv (st : AppState) (h : Reachable st) : inv st := by
  induction h with
  | init fp content todos dones hload =>
      dsimp only [inv, initState, selOk]
      constructor <;> omega
  | step st st' key hr hstep ih => exact keyStep_inv key st st' ih hstep

theorem inv_validSel (st : AppState) (h : inv st) : validSel st := by
  obtain ⟨h1, h2⟩ := h
  unfold selOk at h1 h2
  refine ⟨fun hne => ?_, fun hne => ?_⟩
  · rcases h1 with h1 | ⟨h0, _⟩
    · exact h1
    · exact absurd (List.length_eq_zero.mp h0) hne
  · rcases h2 with h2 | ⟨h0, _⟩
    · exact h2
    · exact absurd (List.length_eq_zero.mp h0) hne

theorem splitNL_line (xs ys : List Char) (h : '\n' ∉ xs) :
    splitNL (xs ++ '\n' :: ys) = xs :: splitNL ys := by
  induction xs with
  | nil => simp [splitNL]
  | cons c cs ih =>
      have hc : ¬c = '\n' := fun hc => h (hc ▸ List.mem_cons_self c cs)
      have hcs : '\n' ∉ cs := fun m => h (List.mem_cons_of_mem c m)
      simp only [List.cons_append, splitNL, if_neg hc, List.append_eq]
      rw [ih hcs]

theorem splitNL_linesJoin (ls : List Str) (h : ∀ l ∈ ls, '\n' ∉ l) :
    splitNL (linesJoin ls) = ls ++ [[]] := by
  induction ls with
  | nil => rfl
  | cons l ls ih =>
      simp only [linesJoin]
      rw [splitNL_line l (linesJoin ls) (h l (List.mem_cons_self l ls)),
        ih (fun x hx => h x (List.mem_cons_of_mem l hx))]
      rfl

theorem stripCR_eq_self (l : Str) (h : l.getLast? ≠ some '\r') : stripCR l = l := by
  unfold stripCR
  rw [if_neg h]

theorem rustLines_linesJoin (ls : List Str) (h1 : ∀ l ∈ ls, '\n' ∉ l)
    (h2 : ∀ l ∈ ls, l.getLast? ≠ some '\r') :
    rustLines (linesJoin ls) = ls := by
  unfold rustLines
  rw [splitNL_linesJoin ls h1]
  dsimp only
  rw [List.getLastD_concat, List.dropLast_concat, if_pos rfl, List.append_nil,
    List.map_congr_left (fun l hl => stripCR_eq_self l (h2 l hl))]
  simp

theorem parse_todo_todoLine (t : Str) : parse_todo (todoPrefix ++ t) = some (Status.Todo, t) := by
  unfold parse_todo
  rw [if_pos (List.isPrefixOf_iff_prefix.mpr (List.prefix_append todoPrefix t)),
    show todoPrefix.length = List.length todoPrefix from rfl, List.drop_left]

theorem parse_todo_doneLine (t : Str) : parse_todo (donePrefix ++ t) = some (Status.Done, t) := by
  unfold parse_todo
  have hnp : ¬(todoPrefix.isPrefixOf (donePrefix ++ t) = true) := by
    unfold todoPrefix donePrefix
    simp [List.isPrefixOf]
  rw [if_neg hnp, if_pos (List.isPrefixOf_iff_prefix.mpr (List.prefix_append donePrefix t)),
    show donePrefix.length = List.length donePrefix from rfl, List.drop_left]

theorem loadLines_doneLines (fp : Str) (ds : List Str) :
    ∀ (a b : List Str) (idx : Nat),
      loadLines fp (ds.map (fun d => donePrefix ++ d)) idx a b = .ok (a, b ++ ds) := by
  induction ds with
  | nil => intro a b idx; simp [loadLines]
  | cons d ds ih =>
      intro a b idx
      simp only [List.map_cons, loadLines, parse_todo_doneLine]
      rw [ih]
      simp

theorem loadLines_savedLines (fp : Str) (ts ds : List Str) :
    ∀ (a b : List Str) (idx : Nat),
      loadLines fp (ts.map (fun t => todoPrefix ++ t) ++ ds.map (fun d => donePrefix ++ d))
        idx a b = .ok (a ++ ts, b ++ ds) := by
  induction ts with
  | nil =>
      intro a b idx
      simp only [List.map_nil, List.nil_append]
      rw [loadLines_doneLines]
      simp
  | cons t ts ih =>
      intro a b idx
      simp only [List.map_cons, List.cons_append, loadLines, parse_todo_todoLine,
        List.append_eq]
      rw [ih]
      simp

theorem saved_line_no_nl (p t : Str) (hp : '\n' ∉ p) (ht : '\n' ∉ t) : '\n' ∉ p ++ t := by
  intro hm
  rcases List.mem_append.mp hm with hm | hm
  · exact hp hm
  · exact ht hm

theorem saved_line_no_cr (p t : Str) (hp : p.getLast? = some ' ')
    (ht : t.getLast? ≠ some '\r') : (p ++ t).getLast? ≠ some '\r' := by
  cases t with
  | nil => rw [List.append_nil, hp]; decide
  | cons x xs =>
      rw [List.getLast?_append_of_ne_nil p (List.cons_ne_nil x xs)]
      exact ht

theorem loadLines_firstBad (fp : Str) :
    ∀ (lines : List Str) (k : Nat) (bad : Str) (idx : Nat) (a b : List Str),
      lines.get? k = some bad → parse_todo bad = none →
      (∀ j, j < k → ((lines.get? j).bind parse_todo).isSome = true) →
      loadLines fp lines idx a b = .error ⟨1, fp, idx + k + 1, loadErrMsg⟩ := by
  intro lines
  induction lines with
  | nil => intro k bad idx a b hget; rw [List.get?_eq_none.mpr (by simp)] at hget; cases hget
  | cons l rest ih =>
      intro k bad idx a b hget hbad hpre
      cases k with
      | zero =>
          rw [List.get?_cons_zero] at hget
          injection hget with hget
          subst hget
          simp only [loadLines, hbad]
      | succ k' =>
          have hl : ((some l).bind parse_todo).isSome = true := by
            have := hpre 0 (Nat.succ_pos k')
            rwa [List.get?_cons_zero] at this
          rw [List.get?_cons_succ] at hget
          cases hp : parse_todo l with
          | none => rw [Option.some_bind, hp] at hl; cases hl
          | some p =>
              obtain ⟨status, title⟩ := p
              have hpre' : ∀ j, j < k' → ((rest.get? j).bind parse_todo).isSome = true := by
                intro j hj
                have := hpre (j + 1) (Nat.succ_lt_succ hj)
                rwa [List.get?_cons_succ] at this
              have harith : idx + (k' + 1) + 1 = (idx + 1) + k' + 1 := by omega
              cases status with
              | Todo =>
                  simp only [loadLines, hp]
                  rw [harith]
                  exact ih k' bad (idx + 1) (a ++ [title]) b hget hbad hpre'
              | Done =>
                  simp only [loadLines, hp]
                  rw [harith]
                  exact ih k' bad (idx + 1) a (b ++ [title]) hget hbad hpre'

/-! ## Claims -/

/-- Claim C2: when the source's selection index is a valid index, `list_transfer`
removes exactly that item from the source (its length drops by 1), appends it
to the destination (its length grows by 1), and the moved item — the one that
was at the source's selection index — becomes the last element of the
destination. -/
theorem claim_C2 (list_dst list_src : List Str) (idx : Nat) (h : idx < list_src.length) :
    ∃ moved : Str, list_src.get? idx = some moved ∧
      (list_transfer list_dst list_src idx).1 = list_dst ++ [moved] ∧
      (list_transfer list_dst list_src idx).1.length = list_dst.length + 1 ∧
      (list_transfer list_dst list_src idx).2.1.length = list_src.length - 1 ∧
      (list_transfer list_dst list_src idx).1.getLast? = some moved := by
  refine ⟨list_src.get ⟨idx, h⟩, ?_, ?_, ?_, ?_, ?_⟩
  · exact List.get?_eq_get h
  · unfold list_transfer; rw [dif_pos h]
  · unfold list_transfer; rw [dif_pos h]; simp
  · unfold list_transfer; rw [dif_pos h]; exact length_eraseIdx_lt _ _ h
  · unfold list_transfer; rw [dif_pos h]; exact List.getLast?_concat _

/-- Witness for C2 at a concrete input: transferring index 1 out of
`["a", "b"]` into `["c"]`. -/
theorem claim_C2_witness :
    ∃ moved : Str, [['a'], ['b']].get? 1 = some moved ∧
      (list_transfer [['c']] [['a'], ['b']] 1).1 = [['c']] ++ [moved] ∧
      (list_transfer [['c']] [['a'], ['b']] 1).1.length = [['c']].length + 1 ∧
      (list_transfer [['c']] [['a'], ['b']] 1).2.1.length = [['a'], ['b']].length - 1 ∧
      (list_transfer [['c']] [['a'], ['b']] 1).1.getLast? = some moved :=
  claim_C2 [['c']] [['a'], ['b']] 1 (by decide)

/-- Claim C3, counterexample to the claim as stated: the item `"a\r"` contains
no embedded newline (`'\n'`) character, yet serializing and deserializing the
pair `(["a\r"], [])` yields `(["a"], [])` — the loader strips the `'\r'` that
ends up directly before the written `'\n'`, exactly as Rust's
`BufRead::lines` strips a trailing CRLF. -/
theorem claim_C3_counterexample :
    ('\n' ∉ (['a', '\r'] : Str)) ∧
    load_state [] (save_state [['a', '\r']] []) = .ok ([['a']], []) ∧
    ([['a']] : List Str) ≠ [['a', '\r']] :=
  ⟨by decide, rfl, by decide⟩

/-- Claim C3 as amended: for lists whose items contain no `'\n'` and do not
end with a `'\r'` (which the loader would strip as part of a CRLF),
serializing with `save_state` and deserializing with `load_state` reproduces
the same two ordered sequences. -/
theorem claim_C3 (todos dones : List Str) (fp : Str)
    (h : ∀ item ∈ todos ++ dones, '\n' ∉ item ∧ item.getLast? ≠ some '\r') :
    load_state fp (save_state todos dones) = .ok (todos, dones) := by
  unfold load_state save_state
  have hline : ∀ l ∈ todos.map (fun t => todoPrefix ++ t) ++
      dones.map (fun d => donePrefix ++ d),
      '\n' ∉ l ∧ l.getLast? ≠ some '\r' := by
    intro l hl
    rcases List.mem_append.mp hl with hm | hm
    · obtain ⟨t, ht, rfl⟩ := List.mem_map.mp hm
      have hi := h t (List.mem_append_left dones ht)
      exact ⟨saved_line_no_nl todoPrefix t (by decide) hi.1,
        saved_line_no_cr todoPrefix t (by decide) hi.2⟩
    · obtain ⟨d, hd, rfl⟩ := List.mem_map.mp hm
      have hi := h d (List.mem_append_right todos hd)
      exact ⟨saved_line_no_nl donePrefix d (by decide) hi.1,
        saved_line_no_cr donePrefix d (by decide) hi.2⟩
  rw [rustLines_linesJoin _ (fun l hl => (hline l hl).1) (fun l hl => (hline l hl).2),
    loadLines_savedLines]
  simp

/-- Witness for C3 at a concrete input: the pair `(["a"], ["bc"])`
round-trips through the codec. -/
theorem claim_C3_witness :
    load_state ['f'] (save_state [['a']] [['b', 'c']]) = .ok ([['a']], [['b', 'c']]) :=
  claim_C3 [['a']] [['b', 'c']] ['f'] (by decide)

/-- Claim C4: there is a reachable state — the one right after loading an
empty file, where the done list is empty — in which the `'s'` key handler
indexes `dones[done_current]` out of bounds and panics (modeled as `none`),
while every other key is total from that same state. -/
theorem claim_C4 :
    ∃ st : AppState, Reachable st ∧ st.dones = [] ∧ keyStep 's' st = none ∧
      ∀ key : Char, key ≠ 's' → (keyStep key st).isSome = true := by
  refine ⟨initState [] [], Reachable.init [] [] [] [] rfl, rfl, rfl, ?_⟩
  intro key hk
  unfold keyStep
  split_ifs <;> rfl

/-- Claim C7: transferring out of an empty source list leaves the destination,
the source, and the selection index unchanged, and signals no error. -/
theorem claim_C7 (list_dst : List Str) (idx : Nat) :
    list_transfer list_dst [] idx = (list_dst, [], idx) := by
  unfold list_transfer
  rw [dif_neg (by simp)]

/-- Claim C8: `list_up` at index 0 leaves the index unchanged, and `list_down`
at index `length - 1` leaves the index unchanged (so re-applying either gives
the same result). -/
theorem claim_C8 :
    list_up 0 = 0 ∧ ∀ l : List Str, list_down l (l.length - 1) = l.length - 1 := by
  refine ⟨rfl, fun l => ?_⟩
  unfold list_down
  split <;> omega

/-- Claim C1, counterexample to the claim as stated: the literal invariant
("each non-empty list's selection index is in bounds", with empty lists
unconstrained) is not preserved by every transfer applied to a state
satisfying it.  The state with `todos = [["a"]]`, `todo_current = 0`,
`dones = []`, `done_current = 1` satisfies it, yet pressing Enter (a
`list_transfer` from todos into dones) yields the non-empty done list
`[["a"]]` with the out-of-bounds selection index 1. -/
theorem claim_C1_counterexample :
    validSel ⟨[['a']], 0, [], 1, Status.Todo, false⟩ ∧
    keyStep '\n' ⟨[['a']], 0, [], 1, Status.Todo, false⟩ =
      some ⟨[], 0, [['a']], 1, Status.Todo, false⟩ ∧
    ¬validSel ⟨[], 0, [['a']], 1, Status.Todo, false⟩ :=
  ⟨by decide, by decide, by decide⟩

/-- Claim C1 as amended: (1) every reachable application state satisfies the
stated invariant (each non-empty list's selection index is in bounds); it is
the strengthened invariant `selOk` — index in bounds for a non-empty list and
exactly 0 for an empty one — that (2,3,4) is preserved by `list_up`,
`list_down`, and `list_transfer` (on both the source and the destination
side), and (5) implies the stated invariant. -/
theorem claim_C1 :
    (∀ st : AppState, Reachable st → validSel st) ∧
    (∀ (l : List Str) (i : Nat), selOk l i → selOk l (list_up i)) ∧
    (∀ (l : List Str) (i : Nat), selOk l i → selOk l (list_down l i)) ∧
    (∀ (dst src : List Str) (i j : Nat), selOk src i → selOk dst j →
      selOk (list_transfer dst src i).2.1 (list_transfer dst src i).2.2 ∧
      selOk (list_transfer dst src i).1 j) ∧
    (∀ st : AppState, inv st → validSel st) := by
  refine ⟨fun st h => inv_validSel st (reachable_inv st h), selOk_list_up, selOk_list_down,
    fun dst src i j hs hd => ⟨list_transfer_selOk_src dst src i hs,
      list_transfer_selOk_dst dst src i j hd⟩, inv_validSel⟩

/-- Witness for C1 at concrete inputs: the state loaded from `"TODO: a\n"` is
reachable and satisfies the invariant; `selOk` is preserved at index 0 of the
one-element list by each operation; and a concrete state satisfying the
strengthened invariant satisfies the stated one. -/
theorem claim_C1_witness :
    validSel (initState [['a']] []) ∧
    selOk [['a']] (list_up 0) ∧
    selOk [['a']] (list_down [['a']] 0) ∧
    (selOk (list_transfer [] [['a']] 0).2.1 (list_transfer [] [['a']] 0).2.2 ∧
      selOk (list_transfer [] [['a']] 0).1 0) ∧
    validSel ⟨[['b']], 0, [], 0, Status.Done, false⟩ :=
  ⟨claim_C1.1 (initState [['a']] [])
      (Reachable.init [] ("TODO: a\n").data [['a']] [] rfl),
    claim_C1.2.1 [['a']] 0 (by decide),
    claim_C1.2.2.1 [['a']] 0 (by decide),
    claim_C1.2.2.2.1 [] [['a']] 0 0 (by decide) (by decide),
    claim_C1.2.2.2.2 ⟨[['b']], 0, [], 0, Status.Done, false⟩ (by decide)⟩

/-- Claim C5: if the file's line at 0-based position `k` matches neither the
`TODO: ` nor the `DONE: ` marker and every earlier line parses, then loading
terminates the process with exit code 1 and a diagnostic that names the
originating file path and the exact 1-based line number `k + 1` of the
offending line. -/
theorem claim_C5 (fp content : Str) (k : Nat) (bad : Str)
    (hget : (rustLines content).get? k = some bad)
    (hbad : parse_todo bad = none)
    (hfirst : ∀ j, j < k → (((rustLines content).get? j).bind parse_todo).isSome = true) :
    load_state fp content = .error ⟨1, fp, k + 1, loadErrMsg⟩ := by
  unfold load_state
  rw [show k + 1 = 0 + k + 1 by omega]
  exact loadLines_firstBad fp (rustLines content) k bad 0 [] [] hget hbad hfirst

/-- Witness for C5 at a concrete input: in a file whose second line is
`NOTE: buy milk`, loading fails with exit code 1 and a diagnostic naming the
path `f.txt` and line number 2. -/
theorem claim_C5_witness :
    load_state ("f.txt").data ("TODO: ok\nNOTE: buy milk\n").data =
      .error ⟨1, ("f.txt").data, 2, loadErrMsg⟩ :=
  claim_C5 ("f.txt").data ("TODO: ok\nNOTE: buy milk\n").data 1 ("NOTE: buy milk").data
    (by decide) (by decide) (by decide)

/-- Claim C6: loading a file with lines `TODO: a`, `TODO: b`, `DONE: c` gives
todo `[a, b]` and done `[c]` with both selections at 0 on the Todo tab;
pressing `j` moves the todo selection from 0 to 1; pressing Enter transfers
`b`, giving todo `[a]` and done `[c, b]`; pressing `q` quits; saving that
state writes `TODO: a`, then `DONE: c`, then `DONE: b`. -/
theorem claim_C6 :
    load_state [] ("TODO: a\nTODO: b\nDONE: c\n").data = .ok ([['a'], ['b']], [['c']]) ∧
    keyStep 'j' (initState [['a'], ['b']] [['c']]) =
      some ⟨[['a'], ['b']], 1, [['c']], 0, Status.Todo, false⟩ ∧
    keyStep '\n' ⟨[['a'], ['b']], 1, [['c']], 0, Status.Todo, false⟩ =
      some ⟨[['a']], 0, [['c'], ['b']], 0, Status.Todo, false⟩ ∧
    keyStep 'q' ⟨[['a']], 0, [['c'], ['b']], 0, Status.Todo, false⟩ =
      some ⟨[['a']], 0, [['c'], ['b']], 0, Status.Todo, true⟩ ∧
    save_state [['a']] [['c'], ['b']] = ("TODO: a\nDONE: c\nDONE: b\n").data :=
  ⟨rfl, by decide, by decide, by decide, by decide⟩

/-- Claim C9: `begin_list` with a list context already open hits the
`NESTED LISTS` assertion (modeled as `none`); `list_element` with no open
context hits the `expect` panic (modeled as `none`); and under the intended
discipline — `begin_list`, then the elements, then `end_list`, starting from
a state with no open context — the render never panics and closes its
context, so the aborts are unreachable. -/
theorem claim_C9 :
    (∀ (ui : Ui) (id : Nat), ui.list_current ≠ none → ui.begin_list id = none) ∧
    (∀ (ui : Ui) (text : Str) (id : Nat), ui.list_current = none →
      ui.list_element text id = none) ∧
    (∀ (ui : Ui) (sel : Nat) (items : List (Str × Nat)), ui.list_current = none →
      ∃ ui' : Ui, renderList ui sel items = some ui' ∧ ui'.list_current = none) := by
  refine ⟨fun ui id h => ?_, fun ui text id h => ?_, fun ui sel items h => ?_⟩
  · unfold Ui.begin_list
    rw [if_neg h]
  · unfold Ui.list_element
    rw [h]
  · unfold renderList Ui.begin_list
    rw [if_pos h]
    have key : ∀ (its : List (Str × Nat)) (u : Ui) (k : Nat), u.list_current = some k →
        ∃ u' : Ui, drawElems u its = some u' ∧ u'.list_current = some k := by
      intro its
      induction its with
      | nil => exact fun u k hk => ⟨u, rfl, hk⟩
      | cons p rest ih =>
          intro u k hk
          obtain ⟨text, id⟩ := p
          have h1 : u.list_element text id =
              some (u.label text (if k = id then HIGHLIGHT_PAIR else REGULAR_PAIR), false) := by
            unfold Ui.list_element
            rw [hk]
          obtain ⟨u', hu', hcur⟩ :=
            ih (u.label text (if k = id then HIGHLIGHT_PAIR else REGULAR_PAIR)) k hk
          exact ⟨u', by unfold drawElems; rw [h1]; exact hu', hcur⟩
    obtain ⟨u', hu', hcur⟩ := key items { ui with list_current := some sel } sel rfl
    dsimp only
    rw [hu']
    exact ⟨u'.end_list, rfl, rfl⟩

/-- Witness for C9 at concrete inputs: nested `begin_list` panics, a stray
`list_element` panics, and a disciplined two-element render succeeds. -/
theorem claim_C9_witness :
    Ui.begin_list ⟨some 0, 0, 0⟩ 1 = none ∧
    Ui.list_element ⟨none, 0, 0⟩ ['a'] 0 = none ∧
    ∃ ui' : Ui, renderList ⟨none, 0, 0⟩ 0 [(['a'], 0), (['b'], 1)] = some ui' ∧
      ui'.list_current = none :=
  ⟨claim_C9.1 ⟨some 0, 0, 0⟩ 1 (by decide),
    claim_C9.2.1 ⟨none, 0, 0⟩ ['a'] 0 rfl,
    claim_C9.2.2 ⟨none, 0, 0⟩ 0 [(['a'], 0), (['b'], 1)] rfl⟩

/-- Claim C10: `Status.toggle` maps `Todo` to `Done` and `Done` to `Todo`, is
an involution, and the two-valued tab type makes exactly one tab active: a tab
is `Todo` precisely when it is not `Done`. -/
theorem claim_C10 :
    Status.toggle Status.Todo = Status.Done ∧ Status.toggle Status.Done = Status.Todo ∧
    (∀ t : Status, t.toggle.toggle = t) ∧ (∀ t : Status, t = Status.Todo ↔ ¬t = Status.Done) := by
  refine ⟨rfl, rfl, fun t => ?_, fun t => ?_⟩ <;> cases t <;> decide

end Clitodo
